import Mathlib

/-!
Shallow embedding of the audit query and detail resolution engine of the
pptb-auditing-manager repository, together with proofs about it.

Source files embedded here:
  * src/hooks/useAuditPagination (cursor cache, `canNavigateToPage`, `setPage`)
  * src/hooks/useAuditLogs.ts (`fetchAuditLogs` cursor recording, `loadDetails`)
  * src/hooks/useAuditFilters.ts (`filterReducer`)
  * src/services/auditLogService.ts (`queryAuditLogs` response normalization,
    `queryAllAuditLogs` bulk walker, `getAuditDetails` cache discipline)
  * src/services/auditDetailParsers.ts (detail parser dispatcher and the
    attribute / share / rolePrivilege / userAccess / relationship / metadata
    parsers)
  * src/services/accessRightsFormatter.ts, src/utils/accessRightsConstants.ts,
    src/utils/constants.ts, src/utils/auditHelpers.ts (formatting helpers)

JavaScript-value semantics (truthiness, `||`, `??`, property access on
non-objects, `String(...)`, `JSON.stringify`) are modelled explicitly on a
small universe `JsVal` of JSON-like values.  Asynchronous collaborators
(principal-name lookup, privilege cache, record lookup, JSON parsing, the
transport layer) are passed in as pure function parameters: a parameter
application models the awaited result of the corresponding call.
-/

namespace Pptb

/-! ## Association lists

JS `Map` objects and plain objects are modelled as association lists in
insertion order; `set`/assignment overwrites the first matching key in place
and otherwise appends, which matches `Map.prototype.set` and JS object
property assignment. -/

/-- First-match lookup, the semantics of `Map.get` / property access. -/
def alLookup {κ β : Type} [DecidableEq κ] : List (κ × β) → κ → Option β
  | [], _ => none
  | (k, v) :: rest, key => if k = key then some v else alLookup rest key

/-- `Map.has` / `Object.prototype.hasOwnProperty`. -/
def alHas {κ β : Type} [DecidableEq κ] (m : List (κ × β)) (key : κ) : Bool :=
  (alLookup m key).isSome

/-- `Map.set` / JS object assignment: overwrite in place or append. -/
def alInsert {κ β : Type} [DecidableEq κ] : List (κ × β) → κ → β → List (κ × β)
  | [], key, v => [(key, v)]
  | (k, w) :: rest, key, v =>
    if k = key then (key, v) :: rest else (k, w) :: alInsert rest key v

/-! ## Pagination state (useAuditPagination + useAuditLogs)

`PagingState` glues together the `PaginationState` record of
src/model/auditLog.ts with the two refs held by `useAuditPagination`:
`pagingCookieRef.current` (`cookieRef`) and `pagingCookieCacheRef.current`
(`cookieCache`).  Cookies are strings; an absent cookie is `none`, and JS
truthiness additionally treats the empty string as absent. -/

structure PagingState where
  pageNumber : Nat
  pageSize : Nat
  totalCount : Int
  hasMoreRecords : Bool
  /-- `pagination.pagingCookie` (the field inside the React state record). -/
  pagingCookie : Option String
  /-- `pagingCookieRef.current`. -/
  cookieRef : Option String
  /-- `pagingCookieCacheRef.current : Map<number, string>`. -/
  cookieCache : List (Nat × String)
  deriving DecidableEq

/-- JS truthiness of an optional string (`undefined` and `""` are falsy). -/
def optStrTruthy : Option String → Bool
  | none => false
  | some s => s ≠ ""

/-- `canNavigateToPage` from useAuditPagination:
page 1 always; page `current+1` when `pagingCookieRef.current` is truthy;
any page with a cache entry. -/
def canNavigateToPage (s : PagingState) (page : Nat) : Bool :=
  if page = 1 then true
  else if page = s.pageNumber + 1 ∧ optStrTruthy s.cookieRef then true
  else alHas s.cookieCache page

/-- `setPage` from useAuditPagination.  Note the truthiness test
`if (cachedCookie)` on the cache hit: an empty-string cookie counts as a
miss and leaves the state unchanged. -/
def setPage (s : PagingState) (page : Nat) : PagingState :=
  if page = s.pageNumber then s
  else if page = 1 then
    { s with pageNumber := 1, pagingCookie := none, cookieRef := none }
  else if page = s.pageNumber + 1 then
    { s with pageNumber := page }
  else
    match alLookup s.cookieCache page with
    | some c =>
      if c = "" then s
      else { s with cookieRef := some c, pageNumber := page }
    | none => s

/-! ## Audit log entries (src/model/auditLog.ts, src/utils/auditHelpers.ts)

`createdOn` keeps the raw `createdon` string (`none` models the
`new Date()` fallback taken when the field is absent); all other fields
follow `AuditLogEntry` directly. -/

structure AuditLogEntry where
  id : String
  createdOn : Option String
  operation : Int
  operationLabel : String
  action : Int
  actionLabel : String
  objectTypeCode : String
  objectId : String
  objectName : String
  userId : String
  userName : String
  attributeMask : Option String
  changeData : Option String
  isExpanded : Bool
  deriving DecidableEq

/-- JS `x || y` on optional strings (falsy: absent or empty). -/
def strOrElse (x : Option String) (y : String) : String :=
  match x with
  | some s => if s = "" then y else s
  | none => y

/-- `getOperationLabel` from src/utils/constants.ts. -/
def getOperationLabel (operation : Int) : String :=
  if operation = 1 then "Create"
  else if operation = 2 then "Update"
  else if operation = 3 then "Delete"
  else if operation = 4 then "Access"
  else "Operation " ++ toString operation

/-- `actionLabels` from src/utils/constants.ts. -/
def actionLabels : List (Int × String) :=
  [(0, "Unknown"), (1, "Create"), (2, "Update"), (3, "Delete"),
   (4, "Activate"), (5, "Deactivate"), (11, "Cascade"), (12, "Merge"),
   (13, "Assign"), (14, "Share"), (15, "Retrieve"), (16, "Close"),
   (17, "Cancel"), (18, "Complete"), (19, "Resolve"), (20, "Reopen"),
   (21, "Fulfill"), (22, "Paid"), (23, "Qualify"), (24, "Disqualify"),
   (25, "Submit"), (26, "Reject"), (27, "Approve"), (28, "Invoice"),
   (29, "Hold"), (30, "Add Member"), (31, "Remove Member"),
   (33, "Associate"), (34, "Disassociate"), (35, "Add Members"),
   (36, "Remove Members"), (37, "Add Item"), (38, "Remove Item"),
   (39, "Add Substitute"), (40, "Remove Substitute"), (41, "Set State"),
   (42, "Set State"), (43, "Renew"), (44, "Revise"), (45, "Win"),
   (46, "Lose"), (47, "Internal Processing"), (48, "Modify Share"),
   (49, "Unshare"), (51, "Book"), (52, "Generate Quote"),
   (53, "Assign Role to Team"), (54, "Remove Role from Team"),
   (55, "Assign Role to User"), (56, "Remove Role from User"),
   (57, "Add Privileges to Role"), (58, "Remove Privileges from Role"),
   (59, "Replace Privileges in Role"), (64, "User Access via Web"),
   (65, "User Access via Web Services"), (68, "Clone"),
   (112, "User Access Audit Started"), (113, "User Access Audit Stopped"),
   (105, "Entity Audit Started"), (106, "Attribute Audit Started"),
   (107, "Audit Enabled"), (108, "Entity Audit Stopped"),
   (109, "Attribute Audit Stopped"), (110, "Audit Disabled"),
   (111, "Audit Log Deletion")]

/-- `getActionLabel` from src/utils/constants.ts
(`actionLabels[action] || Action <n>`; every table entry is non-empty, so
the lookup-then-truthy-fallback collapses to lookup-with-default). -/
def getActionLabel (action : Int) : String :=
  match alLookup actionLabels action with
  | some s => s
  | none => "Action " ++ toString action

/-- `formatGuid` from src/utils/auditHelpers.ts: strip curly braces and
lowercase; falsy input yields `""`. -/
def formatGuid (guid : Option String) : String :=
  match guid with
  | none => ""
  | some s =>
    if s = "" then ""
    else ((s.toList.filter
      (fun c => c ≠ Char.ofNat 123 ∧ c ≠ Char.ofNat 125)).asString).toLower

/-- Raw audit row (`AuditRecord` of src/model/auditLog.ts); only the fields
`toAuditLogEntry` reads are carried.  Absent fields are `none`. -/
structure AuditRecord where
  auditid : Option String
  createdon : Option String
  operation : Option Int
  action : Option Int
  objecttypecode : Option String
  objectidValue : Option String
  useridValue : Option String
  objectidFormatted : Option String
  useridFormatted : Option String
  operationFormatted : Option String
  actionFormatted : Option String
  attributemask : Option String
  changedata : Option String
  deriving DecidableEq

/-- JS truthiness of `Option Int` (absent and `0` are falsy). -/
def optIntTruthy : Option Int → Bool
  | none => false
  | some n => n ≠ 0

/-- `x || y` for optional numbers. -/
def intOrElse (x : Option Int) (y : Int) : Int :=
  match x with
  | some n => if n = 0 then y else n
  | none => y

/-- `toAuditLogEntry` from src/utils/auditHelpers.ts (the caller has
already checked `record.auditid` is truthy, so no failure case remains). -/
def toAuditLogEntry (record : AuditRecord) : AuditLogEntry :=
  { id := record.auditid.getD ""
    createdOn := match record.createdon with
      | some s => if s = "" then none else some s
      | none => none
    operation := intOrElse record.operation 2
    operationLabel :=
      strOrElse record.operationFormatted
        (getOperationLabel (intOrElse record.operation 0))
    action := intOrElse record.action 0
    actionLabel :=
      strOrElse record.actionFormatted
        (getActionLabel (intOrElse record.action 0))
    objectTypeCode := strOrElse record.objecttypecode ""
    objectId := strOrElse (some (formatGuid record.objectidValue)) ""
    objectName :=
      strOrElse record.objectidFormatted (strOrElse record.objectidValue "")
    userId := strOrElse (some (formatGuid record.useridValue)) ""
    userName :=
      strOrElse record.useridFormatted (strOrElse record.useridValue "")
    attributeMask := record.attributemask
    changeData := record.changedata
    isExpanded := false }

/-- The result shape of `queryAuditLogs` in src/services/auditLogService.ts. -/
structure QueryResult where
  entries : List AuditLogEntry
  totalCount : Int
  hasMoreRecords : Bool
  pagingCookie : Option String
  deriving DecidableEq

/-! ## Cursor recording after a fetch (useAuditLogs `fetchAuditLogs`)

The success path of `fetchAuditLogs` (lines 180-195): the returned cookie
becomes `pagingCookieRef.current`, and — only when truthy — is cached under
`pagination.pageNumber + 1`; `totalCount`/`hasMoreRecords` are refreshed.
The catch path clears the entry list but leaves every piece of pagination
state (ref, cache, page number) untouched. -/

def applyFetchSuccess (s : PagingState) (result : QueryResult) : PagingState :=
  let cache :=
    match result.pagingCookie with
    | some c =>
      if c = "" then s.cookieCache
      else alInsert s.cookieCache (s.pageNumber + 1) c
    | none => s.cookieCache
  { s with
    cookieRef := result.pagingCookie
    cookieCache := cache
    totalCount := if result.totalCount = 0 then 0 else result.totalCount
    hasMoreRecords := result.hasMoreRecords }

def applyFetchError (s : PagingState) : PagingState := s

/-! ## Filter state and reducer (src/hooks/useAuditFilters.ts)

Dates are modelled as epoch milliseconds; user/role selections as
`(id, name)` pairs.  The reducer is a direct transcription. -/

structure FiltersState where
  tableLogicalNames : List String
  recordId : Option String
  recordName : Option String
  selectedAttributes : List String
  operations : List Int
  actions : List Int
  fromDate : Option Int
  toDate : Option Int
  selectedUsers : List (String × String)
  selectedSecurityRoles : List (String × String)
  deriving DecidableEq

/-- `initialFiltersState` from src/model/auditLog.ts. -/
def initialFiltersState : FiltersState :=
  { tableLogicalNames := []
    recordId := none
    recordName := none
    selectedAttributes := []
    operations := []
    actions := []
    fromDate := none
    toDate := none
    selectedUsers := []
    selectedSecurityRoles := [] }

inductive FilterAction where
  | setTables (payload : List String)
  | setRecord (id : Option String) (name : Option String)
  | setAttributes (payload : List String)
  | setOperations (payload : List Int)
  | setActions (payload : List Int)
  | setFromDate (payload : Option Int)
  | setToDate (payload : Option Int)
  | setUsers (payload : List (String × String))
  | setSecurityRoles (payload : List (String × String))
  | clearFilters
  deriving DecidableEq

/-- `filterReducer` from src/hooks/useAuditFilters.ts. -/
def filterReducer (state : FiltersState) (action : FilterAction) : FiltersState :=
  match action with
  | .setTables payload =>
    { state with tableLogicalNames := payload, recordId := none, recordName := none }
  | .setRecord id name => { state with recordId := id, recordName := name }
  | .setAttributes payload => { state with selectedAttributes := payload }
  | .setOperations payload => { state with operations := payload }
  | .setActions payload => { state with actions := payload }
  | .setFromDate payload => { state with fromDate := payload }
  | .setToDate payload => { state with toDate := payload }
  | .setUsers payload => { state with selectedUsers := payload }
  | .setSecurityRoles payload => { state with selectedSecurityRoles := payload }
  | .clearFilters =>
    { initialFiltersState with tableLogicalNames := state.tableLogicalNames }

/-- States reachable from `initialFiltersState` through arbitrary reducer
dispatches. -/
inductive FilterReachable : FiltersState → Prop where
  | init : FilterReachable initialFiltersState
  | step (s : FiltersState) (a : FilterAction) :
      FilterReachable s → FilterReachable (filterReducer s a)

/-- States reachable when every `SET_RECORD` dispatch carrying a non-null id
happens while exactly one table is selected — the discipline the UI
enforces (AuditLogExplorer renders the record search only under
`filters.tableLogicalNames.length === 1`). -/
inductive UIFilterReachable : FiltersState → Prop where
  | init : UIFilterReachable initialFiltersState
  | step (s : FiltersState) (a : FilterAction) :
      UIFilterReachable s →
      (∀ id name, a = FilterAction.setRecord (some id) name →
        s.tableLogicalNames.length = 1) →
      UIFilterReachable (filterReducer s a)

/-! ## A universe of JSON-ish values

Detail envelopes arrive as `Record<string, unknown>`; `JsVal` is the value
universe the parsers manipulate.  Numbers are integers (the payloads in
question carry integer codes and bitmasks). -/

inductive JsVal where
  | undefined
  | jsNull
  | bool (b : Bool)
  | num (n : Int)
  | str (s : String)
  | arr (elems : List JsVal)
  | obj (fields : List (String × JsVal))

/-- JS truthiness. -/
def jsTruthy : JsVal → Bool
  | .undefined => false
  | .jsNull => false
  | .bool b => b
  | .num n => n ≠ 0
  | .str s => s ≠ ""
  | .arr _ => true
  | .obj _ => true

def JsVal.isUndefined : JsVal → Bool
  | .undefined => true
  | _ => false

/-- `typeof v === "object"` (true for objects, arrays and `null`). -/
def jsIsObjectType : JsVal → Bool
  | .obj _ => true
  | .arr _ => true
  | .jsNull => true
  | _ => false

/-- JS `a || b`. -/
def jsOrVal (a b : JsVal) : JsVal := if jsTruthy a then a else b

/-- JS `a ?? b` (nullish coalescing). -/
def jsNullish (a b : JsVal) : JsVal :=
  match a with
  | .undefined => b
  | .jsNull => b
  | v => v

/-- Property access `v[key]`; on non-objects it yields `undefined`
(array index/length properties are not modelled — the parsers never read
named properties off arrays). -/
def getField (v : JsVal) (key : String) : JsVal :=
  match v with
  | .obj fields => (alLookup fields key).getD .undefined
  | _ => .undefined

/-- The fields of a value as seen by `Object.keys`/property lookup when the
code aliases a whole value as a record (`oldValues = oldValue`): objects
contribute their fields, arrays their indexed elements. -/
def objFields : JsVal → List (String × JsVal)
  | .obj fields => fields
  | .arr elems => (elems.enum).map (fun p => (toString p.1, p.2))
  | _ => []

mutual
/-- JS `String(v)` (arrays join their elements with `","`, objects print
as `[object Object]`). -/
def jsToString : JsVal → String
  | .undefined => "undefined"
  | .jsNull => "null"
  | .bool b => cond b "true" "false"
  | .num n => toString n
  | .str s => s
  | .arr elems => String.intercalate "," (jsToStringElems elems)
  | .obj _ => "[object Object]"

def jsToStringElems : List JsVal → List String
  | [] => []
  | .undefined :: rest => "" :: jsToStringElems rest
  | .jsNull :: rest => "" :: jsToStringElems rest
  | v :: rest => jsToString v :: jsToStringElems rest
end

/-- String contents escaped for JSON (quotes and backslashes; the inputs in
scope contain no control characters). -/
def jsonEscapeString (s : String) : String :=
  "\"" ++
    (s.toList.foldl
      (fun acc c =>
        acc ++ (if c = '"' then "\\\"" else if c = '\\' then "\\\\"
                else String.singleton c)) "") ++ "\""

mutual
/-- `JSON.stringify(v)` (object fields with `undefined` values are
dropped; a top-level `undefined` is rendered `"null"` — the parsers only
stringify objects/arrays, where that corner is unreachable). -/
def jsonStringify : JsVal → String
  | .undefined => "null"
  | .jsNull => "null"
  | .bool b => cond b "true" "false"
  | .num n => toString n
  | .str s => jsonEscapeString s
  | .arr elems => "[" ++ String.intercalate "," (jsonStringifyElems elems) ++ "]"
  | .obj fields =>
    "\x7b" ++ String.intercalate "," (jsonStringifyFields fields) ++ "\x7d"

def jsonStringifyElems : List JsVal → List String
  | [] => []
  | v :: rest => jsonStringify v :: jsonStringifyElems rest

def jsonStringifyFields : List (String × JsVal) → List String
  | [] => []
  | (_, .undefined) :: rest => jsonStringifyFields rest
  | (k, v) :: rest =>
    (jsonEscapeString k ++ ":" ++ jsonStringify v) :: jsonStringifyFields rest
end

/-- The TS cast `x as string` followed by use as a string.  On actual
strings it is the identity; other values are coerced via `String(...)`
(such inputs do not occur in well-typed payloads). -/
def castString : JsVal → String
  | .str s => s
  | v => jsToString v

/-- `(x || dflt) as string` for a string default. -/
def castStringOr (v : JsVal) (dflt : String) : String :=
  if jsTruthy v then castString v else dflt

/-- `x || y` on strings (empty is falsy). -/
def strOr (x y : String) : String := if x = "" then y else x

/-- Whether `text` starts with `pat` (character lists). -/
def leadsWith : List Char → List Char → Bool
  | [], _ => true
  | _ :: _, [] => false
  | c :: cs, d :: ds => c = d && leadsWith cs ds

/-- Substring search on character lists. -/
def subSearch (pat : List Char) : List Char → Bool
  | [] => leadsWith pat []
  | c :: rest => leadsWith pat (c :: rest) || subSearch pat rest

/-- `String.prototype.includes(pat)`. -/
def strContainsSub (s pat : String) : Bool := subSearch pat.toList s.toList

/-- `s.startsWith(c)` for a single-character pattern (the only shape the
source uses). -/
def strStartsWithChar (s : String) (c : Char) : Bool :=
  match s.toList with
  | [] => false
  | c2 :: _ => c2 = c

def replaceFirstList (pat rep : List Char) : List Char → List Char
  | [] => []
  | c :: rest =>
    if leadsWith pat (c :: rest) then rep ++ (c :: rest).drop pat.length
    else c :: replaceFirstList pat rep rest

/-- JS `String.prototype.replace` with a *string* pattern: replaces only
the first occurrence. -/
def replaceFirst (s pat rep : String) : String :=
  String.mk (replaceFirstList pat.toList rep.toList s.toList)

/-- `parseInt(s, 10)`: skip leading whitespace, optional sign, then the
longest digit run; `none` models `NaN`. -/
def parseIntJs (s : String) : Option Int :=
  let digitsVal : List Char → Option Nat := fun cs =>
    let ds := cs.takeWhile Char.isDigit
    if ds.isEmpty then none
    else some (ds.foldl (fun a c => a * 10 + (c.toNat - 48)) 0)
  match s.toList.dropWhile Char.isWhitespace with
  | '-' :: rest => (digitsVal rest).map (fun n => -(n : Int))
  | '+' :: rest => (digitsVal rest).map (fun n => (n : Int))
  | cs => (digitsVal cs).map (fun n => (n : Int))

mutual
/-- Model of `.replace(/,\s*/g, ', ')`: every comma (and any whitespace run
following it) becomes `", "`. -/
def normalizeCommaSpace : List Char → List Char
  | [] => []
  | c :: rest =>
    if c = ',' then ',' :: ' ' :: normalizeCommaSpaceSkip rest
    else c :: normalizeCommaSpace rest

/-- Skip the whitespace swallowed by the `\s*` part of the pattern, then
resume. -/
def normalizeCommaSpaceSkip : List Char → List Char
  | [] => []
  | c :: rest =>
    if c.isWhitespace then normalizeCommaSpaceSkip rest
    else if c = ',' then ',' :: ' ' :: normalizeCommaSpaceSkip rest
    else c :: normalizeCommaSpace rest
end

/-! ## Detail shapes (src/model/auditLog.ts) -/

structure AttributeDetail where
  attributeName : String
  attributeDisplayName : String
  oldValue : Option String
  newValue : Option String
  oldFormattedValue : Option String
  newFormattedValue : Option String
  deriving DecidableEq

structure ShareDetail where
  principalId : String
  principalName : String
  principalType : String
  oldPrivileges : String
  newPrivileges : String
  deriving DecidableEq

structure RolePrivilege where
  privilegeId : String
  privilegeName : String
  depth : Int
  depthLabel : String
  deriving DecidableEq

structure InvalidPrivilege where
  privilegeId : String
  privilegeName : String
  deriving DecidableEq

structure RolePrivilegeDetail where
  oldRolePrivileges : List RolePrivilege
  newRolePrivileges : List RolePrivilege
  invalidNewPrivileges : List InvalidPrivilege
  deriving DecidableEq

structure UserAccessDetail where
  /-- Raw `AccessTime` string; `none` models the `new Date()` fallback. -/
  accessTime : Option String
  interval : Int
  deriving DecidableEq

structure TargetRecord where
  id : String
  name : String
  logicalName : String
  deriving DecidableEq

structure RelationshipDetail where
  relationshipName : String
  targetRecords : List TargetRecord
  deriving DecidableEq

structure MetadataDetail where
  action : Int
  actionLabel : String
  changeData : Option String
  parsedChangeData : Option JsVal
  attributeDisplayName : Option String
  attributeLogicalName : Option String
  auditEnabled : Option Bool

inductive AuditDetail where
  | attribute (d : AttributeDetail)
  | share (d : ShareDetail)
  | rolePrivilege (d : RolePrivilegeDetail)
  | userAccess (d : UserAccessDetail)
  | relationship (d : RelationshipDetail)
  | metadata (d : MetadataDetail)

/-- Attribute metadata entry (src/model/metadata.ts `AttributeOption`,
restricted to the fields the parsers read). -/
structure AttributeOption where
  logicalName : String
  displayName : String
  columnNumber : Int
  deriving DecidableEq

/-- Privilege cache entry (src/services/privilegeService.ts). -/
structure Privilege where
  privilegeId : String
  name : String
  displayName : Option String
  accessRight : Int
  deriving DecidableEq

/-! ## Access rights formatting (src/services/accessRightsFormatter.ts,
src/utils/accessRightsConstants.ts) -/

/-- JS `a & b` on numbers (operands pass through `ToInt32`; both sides are
reduced mod `2^32`, which preserves the bit pattern and hence the
truthiness of every masked test). -/
def jsBitAnd (a b : Int) : Int :=
  Int.ofNat ((a.emod (2 ^ 32)).toNat &&& (b.emod (2 ^ 32)).toNat)

/-- The `AccessRights` bit flags in the order the formatter tests them. -/
def accessRightsFlags : List (Int × String) :=
  [(1, "Read"), (2, "Write"), (4, "Append"), (16, "AppendTo"),
   (32, "Create"), (65536, "Delete"), (262144, "Share"), (524288, "Assign")]

/-- `formatAccessRightsFromNumber`. -/
def formatAccessRightsFromNumber (value : Int) : String :=
  if value = 0 then "None"
  else
    let flags := accessRightsFlags.filterMap
      (fun p => if jsBitAnd value p.1 ≠ 0 then some p.2 else none)
    if flags.length > 0 then String.intercalate ", " flags else "None"

/-- `formatAccessRights`: dispatch on the runtime type of the payload. -/
def formatAccessRights (rights : JsVal) : String :=
  match rights with
  | .undefined => "None"
  | .jsNull => "None"
  | .str s =>
    match parseIntJs s with
    | none =>
      strOr (String.mk (normalizeCommaSpace
        ((s.replace "Access" "").toList))).trim "None"
    | some n => formatAccessRightsFromNumber n
  | .num n => formatAccessRightsFromNumber n
  | .obj _ =>
    let val := jsNullish (getField rights "Value")
      (jsNullish (getField rights "value") rights)
    match val with
    | .num n => formatAccessRightsFromNumber n
    | .str s => strOr s "None"
    | _ => strOr (jsToString rights) "None"
  | .arr _ =>
    let val := jsNullish (getField rights "Value")
      (jsNullish (getField rights "value") rights)
    match val with
    | .num n => formatAccessRightsFromNumber n
    | .str s => strOr s "None"
    | _ => strOr (jsToString rights) "None"
  | .bool b => strOr (jsToString (.bool b)) "None"

/-- `formatPrivilegeDepth` (`PrivilegeDepthLabels[depth] || Level <n>`). -/
def formatPrivilegeDepth (depth : Int) : String :=
  if depth = 1 then "User"
  else if depth = 2 then "Business Unit"
  else if depth = 4 then "Parent: Child Business Units"
  else if depth = 8 then "Organization"
  else "Level " ++ toString depth

/-! ## Detail parsers (src/services/auditDetailParsers.ts) -/

/-- The merge step of `parseAttributeAuditDetail` for one of the
`OldValue`/`NewValue` containers: a truthy container either contributes its
`Attributes: [{key, value}]` entries (truthy keys only, later entries
overwriting earlier ones) or, when it is any other object, its own
fields. -/
def buildValueMap (container : JsVal) : List (String × JsVal) :=
  if jsTruthy container then
    match getField container "Attributes" with
    | .arr attrs =>
      attrs.foldl
        (fun m attr =>
          let k := getField attr "key"
          if jsTruthy k then alInsert m (castString k) (getField attr "value")
          else m) []
    | _ =>
      if jsIsObjectType container then
        (objFields container).foldl (fun m p => alInsert m p.1 p.2) []
      else []
  else []

/-- Key list of a merged value map in first-occurrence order
(`Object.keys` / the `Set` union in the parser). -/
def dedupKeys (keys : List String) : List String :=
  keys.foldl (fun acc k => if acc.contains k then acc else acc ++ [k]) []

/-- `formatAuditValue` from src/services/auditDetailParsers.ts:
`null`/`undefined` map to `null`; a truthy
`<key>@OData.Community.Display.V1.FormattedValue` side channel wins;
objects prefer a truthy `.Name`, else `JSON.stringify`; anything else is
`String(...)`-converted. -/
def formatAuditValue (value : JsVal) (allValues : List (String × JsVal))
    (attrName : String) : Option String :=
  match value with
  | .jsNull => none
  | .undefined => none
  | _ =>
    let formattedKey := attrName ++ "@OData.Community.Display.V1.FormattedValue"
    let fv := (alLookup allValues formattedKey).getD .undefined
    if jsTruthy fv then some (jsToString fv)
    else if jsIsObjectType value then
      let nm := getField value "Name"
      if jsTruthy nm then some (jsToString nm) else some (jsonStringify value)
    else some (jsToString value)

/-- `parseAttributeAuditDetail`: one row per key of the merged old/new maps,
skipping `@`/`_`-prefixed keys and keys whose value is `undefined` on both
sides; the display name resolves through the attribute map with the raw
field name as fallback.  Note that the parser emits a row even when the old
and new values coincide. -/
def parseAttributeAuditDetail (auditDetail : JsVal)
    (attributeMap : List (String × AttributeOption)) : List AttributeDetail :=
  let oldValues := buildValueMap (getField auditDetail "OldValue")
  let newValues := buildValueMap (getField auditDetail "NewValue")
  let allAttributes :=
    dedupKeys (oldValues.map (fun p => p.1) ++ newValues.map (fun p => p.1))
  allAttributes.foldl
    (fun details attrName =>
      if strStartsWithChar attrName '@' || strStartsWithChar attrName '_' then details
      else
        let oldVal := (alLookup oldValues attrName).getD .undefined
        let newVal := (alLookup newValues attrName).getD .undefined
        if oldVal.isUndefined ∧ newVal.isUndefined then details
        else
          let displayName :=
            match alLookup attributeMap attrName with
            | some meta => strOr meta.displayName attrName
            | none => attrName
          details ++
            [{ attributeName := attrName
               attributeDisplayName := displayName
               oldValue := formatAuditValue oldVal oldValues attrName
               newValue := formatAuditValue newVal newValues attrName
               oldFormattedValue := none
               newFormattedValue := none }]) []

/-- `parseShareAuditDetail`.  `lookupP id ty` models the awaited result of
`lookupPrincipalName(id, ty)`. -/
def parseShareAuditDetail (lookupP : String → String → String)
    (auditDetail : JsVal) : List ShareDetail :=
  let principal := getField auditDetail "Principal"
  let oldPrivileges := getField auditDetail "OldPrivileges"
  let newPrivileges := getField auditDetail "NewPrivileges"
  let info :=
    if jsTruthy principal then
      let odataType := castStringOr (getField principal "@odata.type") ""
      let principalType :=
        strOr (replaceFirst odataType "#Microsoft.Dynamics.CRM." "") "systemuser"
      let principalId :=
        castString (jsOrVal (getField principal "ownerid")
          (jsOrVal (getField principal "Id")
            (jsOrVal (getField principal "id")
              (jsOrVal (getField principal "systemuserid")
                (jsOrVal (getField principal "teamid") (.str ""))))))
      let principalName :=
        castString (jsOrVal (getField principal "Name")
          (jsOrVal (getField principal "name")
            (jsOrVal (getField principal "fullname")
              (jsOrVal (getField principal "FullName")
                (jsOrVal
                  (getField principal "@OData.Community.Display.V1.FormattedValue")
                  (jsOrVal
                    (getField principal
                      "name@OData.Community.Display.V1.FormattedValue")
                    (.str "")))))))
      let principalName :=
        if principalName = "" ∧ principalId ≠ "" then lookupP principalId principalType
        else principalName
      let principalName :=
        if principalName = "" ∨ principalName = "Unknown" then
          if principalId ≠ "" then
            (if principalType = "team" then "Team" else "User") ++
              " (" ++ (principalId.toList.take 8).asString ++ "...)"
          else "Unknown"
        else principalName
      (principalName, principalId, principalType)
    else ("Unknown", "", "systemuser")
  [{ principalId := info.2.1
     principalName := info.1
     principalType := info.2.2
     oldPrivileges := formatAccessRights oldPrivileges
     newPrivileges := formatAccessRights newPrivileges }]

/-- The TS cast `x as number` used directly as a number; non-numbers do not
occur in well-typed payloads and are mapped to `0`. -/
def castNum : JsVal → Int
  | .num n => n
  | _ => 0

/-- `parseRolePrivilegeAuditDetail`.  `privCache` models the awaited
privilege cache (`loadPrivileges()`). -/
def parseRolePrivilegeAuditDetail (privCache : String → Option Privilege)
    (auditDetail : JsVal) : List RolePrivilegeDetail :=
  let oldPrivileges := jsOrVal (getField auditDetail "OldRolePrivileges") (.arr [])
  let newPrivileges := jsOrVal (getField auditDetail "NewRolePrivileges") (.arr [])
  let invalidPrivileges :=
    jsOrVal (getField auditDetail "InvalidNewPrivileges") (.arr [])
  let mapPrivilege : JsVal → RolePrivilege := fun p =>
    let privilegeId :=
      castString (jsOrVal (getField p "PrivilegeId")
        (jsOrVal (getField p "privilegeId") (.str "")))
    let nameRaw := jsOrVal (getField p "PrivilegeName") (getField p "privilegeName")
    let privilegeName := if jsTruthy nameRaw then castString nameRaw else ""
    let privilegeName :=
      if privilegeName = "" ∧ privilegeId ≠ "" then
        match privCache privilegeId with
        | some cp => strOr (cp.displayName.getD "") cp.name
        | none => ""
      else privilegeName
    let depth := castNum (jsOrVal (getField p "Depth")
      (jsOrVal (getField p "depth") (.num 0)))
    { privilegeId := privilegeId
      privilegeName := strOr privilegeName privilegeId
      depth := depth
      depthLabel := formatPrivilegeDepth depth }
  let mapInvalidPrivilege : String → InvalidPrivilege := fun privId =>
    { privilegeId := privId
      privilegeName :=
        match privCache privId with
        | some cp => strOr (strOr (cp.displayName.getD "") cp.name) privId
        | none => privId }
  [{ oldRolePrivileges :=
       match oldPrivileges with
       | .arr l => l.map mapPrivilege
       | _ => []
     newRolePrivileges :=
       match newPrivileges with
       | .arr l => l.map mapPrivilege
       | _ => []
     invalidNewPrivileges :=
       match invalidPrivileges with
       | .arr l => l.map (fun v => mapInvalidPrivilege (castString v))
       | _ => [] }]

/-- `parseUserAccessAuditDetail`. -/
def parseUserAccessAuditDetail (auditDetail : JsVal) : List UserAccessDetail :=
  let accessTime :=
    match getField auditDetail "AccessTime" with
    | .str s => if s = "" then none else some s
    | _ => none
  let interval :=
    match getField auditDetail "Interval" with
    | .num n => n
    | _ => 0
  [{ accessTime := accessTime, interval := interval }]

/-- `parseRelationshipAuditDetail`.  `getRec tbl id` models the awaited
`getRecord(tbl, id)`, returning the record's primary name (`none` for a
miss or a thrown lookup). -/
def parseRelationshipAuditDetail (getRec : String → String → Option String)
    (auditDetail : JsVal) : List RelationshipDetail :=
  let relationshipName := castStringOr (getField auditDetail "RelationshipName") ""
  let targetRecords := jsOrVal (getField auditDetail "TargetRecords") (.arr [])
  let targets :=
    match targetRecords with
    | .arr l =>
      l.map (fun r =>
        let id := castString (jsOrVal (getField r "Id")
          (jsOrVal (getField r "id") (.str "")))
        let logicalName := castString (jsOrVal (getField r "LogicalName")
          (jsOrVal (getField r "logicalName") (.str "")))
        let name := castString (jsOrVal (getField r "Name")
          (jsOrVal (getField r "name") (.str "")))
        let name :=
          if name = "" ∧ id ≠ "" ∧ logicalName ≠ "" then
            match getRec logicalName id with
            | some nm => nm
            | none => name
          else name
        { id := id
          name := strOr (strOr name id) "Unknown"
          logicalName := logicalName })
    | _ => []
  [{ relationshipName := relationshipName, targetRecords := targets }]

/-- `MetadataActionLabels` (`|| Action <n>` fallback). -/
def metadataActionLabel (action : Int) : String :=
  if action = 100 then "Delete Entity"
  else if action = 101 then "Delete Attribute"
  else if action = 102 then "Audit Change at Entity Level"
  else if action = 103 then "Audit Change at Attribute Level"
  else if action = 104 then "Audit Change at Org Level"
  else "Action " ++ toString action

/-- `METADATA_ACTION_CODES`. -/
def metadataActionCodes : List Int := [100, 101, 102, 103, 104]

/-- `parseMetadataAuditDetail`.  `parseJson` models `JSON.parse`
(`none` = throw); `attrByCol tbl n` models the awaited
`getAttributeByColumnNumber(tbl, n)`. -/
def parseMetadataAuditDetail (parseJson : String → Option JsVal)
    (attrByCol : String → Int → Option AttributeOption)
    (entry : AuditLogEntry) : List MetadataDetail :=
  let parsedChangeData :=
    match entry.changeData with
    | some s => if s = "" then none else parseJson s
    | none => none
  let auditEnabled :=
    if 102 ≤ entry.action ∧ entry.action ≤ 104 ∧
        optStrTruthy entry.changeData then
      let l := (entry.changeData.getD "").toLower.trim
      if l = "true" then some true
      else if l = "false" then some false
      else none
    else none
  let attrNames :=
    if entry.action = 103 ∧ optStrTruthy entry.attributeMask ∧
        entry.objectTypeCode ≠ "" then
      match parseIntJs (entry.attributeMask.getD "") with
      | some columnNumber =>
        match attrByCol entry.objectTypeCode columnNumber with
        | some attr => (some attr.displayName, some attr.logicalName)
        | none => (none, none)
      | none => (none, none)
    else (none, none)
  [{ action := entry.action
     actionLabel := metadataActionLabel entry.action
     changeData :=
       match entry.changeData with
       | some s => if s = "" then none else some s
       | none => none
     parsedChangeData := parsedChangeData
     attributeDisplayName := attrNames.1
     attributeLogicalName := attrNames.2
     auditEnabled := auditEnabled }]

/-- `parseAuditDetail`: the dispatcher.  Classification inspects
`@odata.type` by substring, in source order; old/new value containers make
the attribute parser the default; otherwise no detail is produced. -/
def parseAuditDetail (lookupP : String → String → String)
    (privCache : String → Option Privilege)
    (getRec : String → String → Option String)
    (auditDetail : JsVal) (_entityLogicalName : String)
    (attributeMap : List (String × AttributeOption)) : List AuditDetail :=
  let odataType := castStringOr (getField auditDetail "@odata.type") ""
  if strContainsSub odataType "ShareAuditDetail" then
    (parseShareAuditDetail lookupP auditDetail).map .share
  else if strContainsSub odataType "RolePrivilegeAuditDetail" then
    (parseRolePrivilegeAuditDetail privCache auditDetail).map .rolePrivilege
  else if strContainsSub odataType "UserAccessAuditDetail" then
    (parseUserAccessAuditDetail auditDetail).map .userAccess
  else if strContainsSub odataType "RelationshipAuditDetail" then
    (parseRelationshipAuditDetail getRec auditDetail).map .relationship
  else if jsTruthy (getField auditDetail "OldValue") ∨
      jsTruthy (getField auditDetail "NewValue") then
    (parseAttributeAuditDetail auditDetail attributeMap).map .attribute
  else []

/-! ## Page fetcher (src/services/auditLogService.ts `queryAuditLogs`)

The FetchXML query construction feeds the transport; the transport result
is abstracted as an `Except` parameter: `.error` models a rejected
`fetchXmlQuery` call, `.ok none` a falsy response, `.ok (some rd)` a
response envelope.  `decode` abstracts `decodePagingCookie` (regex
extraction plus double `decodeURIComponent`), which no claim inspects. -/

/-- The response envelope with the side-channel fields `queryAuditLogs`
reads (absent field = `none`). -/
structure FetchXmlResponse where
  value : Option (List AuditRecord)
  fetchxmlpagingcookie : Option String
  morerecords : Option Bool
  totalrecordcount : Option Int
  deriving DecidableEq

/-- The pagination arguments `queryAuditLogs` consumes. -/
structure PaginationArgs where
  pageNumber : Nat
  pageSize : Nat
  pagingCookie : Option String
  deriving DecidableEq

/-- JS truthiness of one raw record's `auditid` (`record && record.auditid`). -/
def auditidTruthy (r : AuditRecord) : Bool := optStrTruthy r.auditid

def emptyQueryResult : QueryResult :=
  { entries := [], totalCount := 0, hasMoreRecords := false, pagingCookie := none }

/-- `queryAuditLogs` response normalization.  The `filters` argument only
shapes the outbound query (not modelled beyond the transport parameter) and
is retained for signature fidelity. -/
def queryAuditLogs (decode : String → String) (_filters : FiltersState)
    (pagination : PaginationArgs)
    (api : Except String (Option FetchXmlResponse)) : QueryResult :=
  match api with
  | .error _ => emptyQueryResult
  | .ok none => emptyQueryResult
  | .ok (some rd) =>
    let records := rd.value.getD []
    let pagingCookie : Option String :=
      match rd.fetchxmlpagingcookie with
      | some s => if s = "" then none else some (decode s)
      | none => none
    if records.length = 0 then
      { entries := []
        totalCount := (rd.totalrecordcount.getD 0)
        hasMoreRecords := false
        pagingCookie := none }
    else
      let entries := (records.filter auditidTruthy).map toAuditLogEntry
      let hasMoreRecords :=
        match rd.morerecords with
        | some b => b
        | none => decide (pagination.pageSize ≤ records.length)
      let estimate : Int :=
        if hasMoreRecords then
          (entries.length : Int) * ((pagination.pageNumber : Int) + 1)
        else
          (entries.length : Int) +
            ((pagination.pageNumber : Int) - 1) * (pagination.pageSize : Int)
      let totalCount :=
        match rd.totalrecordcount with
        | some t => if t = 0 then estimate else t
        | none => estimate
      { entries := entries
        totalCount := totalCount
        hasMoreRecords := hasMoreRecords
        pagingCookie := pagingCookie }

/-! ## Bulk exporter (src/services/auditLogService.ts `queryAllAuditLogs`)

The page source `fp pageNumber pagingCookie` abstracts one
`queryAuditLogs` call.  Alongside the returned `{entries, totalCount}` the
model records the number of page fetches issued and the `onProgress`
events, which are the observables the export-cap claims speak about.  The
while-loop is driven by explicit fuel; every theorem below supplies enough
fuel for the loop to run to its real termination point, so the
fuel-exhaustion branch is never the one characterized. -/

structure WalkResult where
  entries : List AuditLogEntry
  totalCount : Int
  fetches : Nat
  progress : List (Nat × Int)
  deriving DecidableEq

def queryAllLoop (fp : Nat → Option String → QueryResult) (maxRecords : Nat) :
    Nat → List AuditLogEntry → Nat → Option String → Bool → Int → Nat →
    List (Nat × Int) → WalkResult
  | 0, acc, _, _, _, total, fetches, prog =>
    { entries := acc, totalCount := total, fetches := fetches, progress := prog }
  | fuel + 1, acc, pageNumber, cookie, hasMore, total, fetches, prog =>
    if hasMore then
      if 0 < maxRecords ∧ maxRecords ≤ acc.length then
        { entries := acc, totalCount := total, fetches := fetches, progress := prog }
      else
        let result := fp pageNumber cookie
        if result.entries.length = 0 then
          { entries := acc, totalCount := total, fetches := fetches + 1,
            progress := prog }
        else
          let newAcc :=
            if 0 < maxRecords then
              acc ++ result.entries.take (maxRecords - acc.length)
            else acc ++ result.entries
          queryAllLoop fp maxRecords fuel newAcc (pageNumber + 1)
            result.pagingCookie result.hasMoreRecords result.totalCount
            (fetches + 1) (prog ++ [(newAcc.length, result.totalCount)])
    else
      { entries := acc, totalCount := total, fetches := fetches, progress := prog }

/-- `queryAllAuditLogs`: start at page 1, no cookie, `hasMoreRecords = true`,
`totalCount = 0`. -/
def queryAllAuditLogs (fp : Nat → Option String → QueryResult)
    (maxRecords fuel : Nat) : WalkResult :=
  queryAllLoop fp maxRecords fuel [] 1 none true 0 0 []

/-! ## Details cache (src/services/auditLogService.ts `getAuditDetails`,
`getCachedDetails`, `clearAuditDetailsCache`; src/hooks/useAuditLogs.ts
`loadDetails`) -/

/-- The module-level `detailsCache : Map<string, AuditDetail[]>`. -/
def DetailsCache : Type := List (String × List AuditDetail)

def clearAuditDetailsCache : DetailsCache := []

def getCachedDetails (cache : DetailsCache) (auditId : String) :
    Option (List AuditDetail) :=
  alLookup cache auditId

/-- `getAuditDetails` as a cache transformer: returns the parsed details
together with the updated cache.  `execOutcome` models the awaited
`RetrieveAuditDetails` call (`.error` = reject, which the surrounding
`catch` converts into caching `[]` and returning `[]`). -/
def getAuditDetails (parseJson : String → Option JsVal)
    (attrByCol : String → Int → Option AttributeOption)
    (lookupP : String → String → String)
    (privCache : String → Option Privilege)
    (getRec : String → String → Option String)
    (attributeMap : List (String × AttributeOption))
    (cache : DetailsCache) (auditId : String) (entityLogicalName : String)
    (entry : Option AuditLogEntry)
    (execOutcome : Except String JsVal) : List AuditDetail × DetailsCache :=
  match entry with
  | some e =>
    if e.action ∈ metadataActionCodes then
      let details := (parseMetadataAuditDetail parseJson attrByCol e).map .metadata
      (details, alInsert cache auditId details)
    else
      getAuditDetailsFetch lookupP privCache getRec attributeMap cache auditId
        entityLogicalName execOutcome
  | none =>
    getAuditDetailsFetch lookupP privCache getRec attributeMap cache auditId
      entityLogicalName execOutcome
where
  /-- The non-metadata path: call `RetrieveAuditDetails` and dispatch. -/
  getAuditDetailsFetch (lookupP : String → String → String)
      (privCache : String → Option Privilege)
      (getRec : String → String → Option String)
      (attributeMap : List (String × AttributeOption))
      (cache : DetailsCache) (auditId : String) (entityLogicalName : String)
      (execOutcome : Except String JsVal) : List AuditDetail × DetailsCache :=
    match execOutcome with
    | .error _ => ([], alInsert cache auditId [])
    | .ok response =>
      if jsTruthy response then
        let auditDetail := jsOrVal (getField response "AuditDetail") response
        if jsTruthy auditDetail then
          let details := parseAuditDetail lookupP privCache getRec auditDetail
            entityLogicalName attributeMap
          (details, alInsert cache auditId details)
        else ([], alInsert cache auditId [])
      else ([], cache)

/-- Outcome record for `loadDetails`: the updated per-component
`detailsMap` plus whether a `getAuditDetails` fetch was issued at all. -/
structure LoadDetailsResult where
  detailsMap : List (String × List AuditDetail)
  fetchIssued : Bool

/-- The entity-name resolution inside `loadDetails`
(`entityLogicalName`, else single-selected table, else the entry's
`objectTypeCode`; the empty string stands for every falsy outcome). -/
def resolveEntityName (entityLogicalNameArg : Option String)
    (tables : List String) (entry : Option AuditLogEntry) : String :=
  let base := entityLogicalNameArg.getD ""
  if base ≠ "" then base
  else
    let t := if tables.length = 1 then tables.headD "" else ""
    if t ≠ "" then t
    else
      match entry with
      | some e => e.objectTypeCode
      | none => ""

/-- `loadDetails` from useAuditLogs: component map hit → no work; service
cache hit (note: an empty cached array is truthy in JS and therefore a
hit) → copy into the component map without fetching; otherwise resolve the
entity name and, when truthy, fetch.  `fetchResult` models the awaited
`getAuditDetails` result on that final path. -/
def loadDetails (detailsMap : List (String × List AuditDetail))
    (cache : DetailsCache) (entries : List AuditLogEntry)
    (tables : List String) (entryId : String)
    (entityLogicalNameArg : Option String)
    (fetchResult : List AuditDetail) : LoadDetailsResult :=
  if alHas detailsMap entryId then
    { detailsMap := detailsMap, fetchIssued := false }
  else
    match getCachedDetails cache entryId with
    | some cached =>
      { detailsMap := alInsert detailsMap entryId cached, fetchIssued := false }
    | none =>
      let entry := entries.find? (fun e => e.id = entryId)
      let resolved := resolveEntityName entityLogicalNameArg tables entry
      if resolved = "" then
        { detailsMap := detailsMap, fetchIssued := false }
      else
        { detailsMap := alInsert detailsMap entryId fetchResult,
          fetchIssued := true }

/-! ## Concrete page sources and helpers used by the statements -/

/-- A page source with unboundedly many pages whose contents come from
`ps` (page `n` serves `ps[n-1]`, and `[]` past the end); the service always
reports `hasMoreRecords = true`, so the walk stops only on an empty
page. -/
def flatPageSource (ps : List (List AuditLogEntry)) (total : Int) :
    Nat → Option String → QueryResult :=
  fun n _ =>
    { entries := (ps.drop (n - 1)).headD []
      totalCount := total
      hasMoreRecords := true
      pagingCookie := none }

/-- A page source serving `ps` whose last page reports
`hasMoreRecords = false`. -/
def boundedPageSource (ps : List (List AuditLogEntry)) (total : Int) :
    Nat → Option String → QueryResult :=
  fun n _ =>
    { entries := (ps.drop (n - 1)).headD []
      totalCount := total
      hasMoreRecords := decide (n < ps.length)
      pagingCookie := none }

/-- A fixed audit entry for concrete instantiations. -/
def sampleEntry : AuditLogEntry :=
  { id := "a1", createdOn := none, operation := 1, operationLabel := "Create"
    action := 1, actionLabel := "Create", objectTypeCode := "contact"
    objectId := "", objectName := "", userId := "", userName := ""
    attributeMask := none, changeData := none, isExpanded := false }

/-- Whether `parseAttributeAuditDetail` emits a row for the key `k`: `k` is
not a metadata key (`@`/`_` prefix) and at least one of the merged maps has
a defined value for it. -/
def attributeRowEmitted (oldValues newValues : List (String × JsVal))
    (k : String) : Bool :=
  !(strStartsWithChar k '@' || strStartsWithChar k '_') &&
    !(((alLookup oldValues k).getD .undefined).isUndefined &&
      ((alLookup newValues k).getD .undefined).isUndefined)

/-- The display name `parseAttributeAuditDetail` resolves for a field:
the attribute map's (truthy) display name, else the raw field name. -/
def attributeDisplayNameOf (attributeMap : List (String × AttributeOption))
    (k : String) : String :=
  match alLookup attributeMap k with
  | some meta => strOr meta.displayName k
  | none => k

/-! # Lemmas -/

theorem alLookup_insert_self {κ β : Type} [DecidableEq κ]
    (m : List (κ × β)) (k : κ) (v : β) :
    alLookup (alInsert m k v) k = some v := by
  induction m with
  | nil => simp [alInsert, alLookup]
  | cons hd tl ih =>
    obtain ⟨k0, v0⟩ := hd
    by_cases h : k0 = k
    · simp [alInsert, h, alLookup]
    · simp [alInsert, h, alLookup, ih]

theorem alLookup_insert_ne {κ β : Type} [DecidableEq κ]
    (m : List (κ × β)) (k k2 : κ) (v : β) (h : k2 ≠ k) :
    alLookup (alInsert m k v) k2 = alLookup m k2 := by
  induction m with
  | nil => simp [alInsert, alLookup, Ne.symm h]
  | cons hd tl ih =>
    obtain ⟨k0, v0⟩ := hd
    by_cases h0 : k0 = k
    · subst h0
      simp [alInsert, alLookup, Ne.symm h]
    · simp only [alInsert, if_neg h0, alLookup]
      by_cases h1 : k0 = k2
      · simp [h1]
      · simp [h1, ih]

theorem alHas_insert {κ β : Type} [DecidableEq κ]
    (m : List (κ × β)) (k k2 : κ) (v : β)
    (h : alHas (alInsert m k v) k2 = true) :
    alHas m k2 = true ∨ k2 = k := by
  by_cases hk : k2 = k
  · exact Or.inr hk
  · left
    rw [alHas, ← alLookup_insert_ne m k k2 v hk]
    exact h

theorem queryAllLoop_cap (fp : Nat → Option String → QueryResult) (S M : Nat)
    (hS : 0 < S)
    (hsrc : ∀ n c, (fp n c).entries.length = S ∧ (fp n c).hasMoreRecords = true) :
    ∀ fuel rem acc pn ck total fetches prog,
      acc.length + rem = M → 0 < rem → rem + 1 ≤ fuel →
      (queryAllLoop fp M fuel acc pn ck true total fetches prog).entries.length = M ∧
      (queryAllLoop fp M fuel acc pn ck true total fetches prog).fetches =
        fetches + (rem + S - 1) / S := by
  intro fuel
  induction fuel with
  | zero =>
    intro rem acc pn ck total fetches prog hacc hrem hfuel
    omega
  | succ f ih =>
    intro rem acc pn ck total fetches prog hacc hrem hfuel
    have hM : 0 < M := by omega
    have hlt : acc.length < M := by omega
    have hcond : ¬(0 < M ∧ M ≤ acc.length) := by omega
    have hlen : (fp pn ck).entries.length = S := (hsrc pn ck).1
    have hmore : (fp pn ck).hasMoreRecords = true := (hsrc pn ck).2
    have hnz : ¬((fp pn ck).entries.length = 0) := by omega
    have hremeq : M - acc.length = rem := by omega
    simp only [queryAllLoop, if_true, if_neg hcond, if_pos hM, hremeq, if_neg hnz]
    set newAcc := acc ++ (fp pn ck).entries.take rem with hNA
    have hNAlen : newAcc.length = acc.length + min rem S := by
      simp [hNA, List.length_take, hlen]
    rw [hmore]
    by_cases hcase : rem ≤ S
    · -- the cap is met on this page; the next loop head stops immediately
      have hNAfull : newAcc.length = M := by
        have : min rem S = rem := Nat.min_eq_left hcase
        omega
      have hf1 : 1 ≤ f := by omega
      obtain ⟨f2, rfl⟩ : ∃ f2, f = f2 + 1 := ⟨f - 1, by omega⟩
      have hstop : 0 < M ∧ M ≤ newAcc.length := by omega
      simp only [queryAllLoop, if_true, if_pos hstop]
      refine ⟨hNAfull, ?_⟩
      have : (rem + S - 1) / S = 1 := by
        apply Nat.div_eq_of_lt_le
        · omega
        · omega
      omega
    · -- a full page is consumed and the loop continues
      push_neg at hcase
      have hmin : min rem S = S := Nat.min_eq_right (Nat.le_of_lt hcase)
      have hrec :=
        ih (rem - S) newAcc (pn + 1) (fp pn ck).pagingCookie
          (fp pn ck).totalCount (fetches + 1)
          (prog ++ [(newAcc.length, (fp pn ck).totalCount)])
          (by omega) (by omega) (by omega)
      refine ⟨hrec.1, ?_⟩
      rw [hrec.2]
      have hdiv : (rem + S - 1) / S = (rem - S + S - 1) / S + 1 := by
        have h1 : rem + S - 1 = (rem - S + S - 1) + S := by omega
        rw [h1, Nat.add_div_right _ hS]
      omega

theorem queryAllLoop_flat (ps : List (List AuditLogEntry)) (total : Int)
    (hne : ∀ p ∈ ps, p ≠ []) :
    ∀ sfx i fuel acc ck tot fetches prog,
      ps.drop i = sfx → sfx.length + 2 ≤ fuel →
      (queryAllLoop (flatPageSource ps total) 0 fuel acc (i + 1) ck true tot
          fetches prog).entries = acc ++ sfx.flatten ∧
      (queryAllLoop (flatPageSource ps total) 0 fuel acc (i + 1) ck true tot
          fetches prog).fetches = fetches + sfx.length + 1 ∧
      (queryAllLoop (flatPageSource ps total) 0 fuel acc (i + 1) ck true tot
          fetches prog).progress.length = prog.length + sfx.length := by
  intro sfx
  induction sfx with
  | nil =>
    intro i fuel acc ck tot fetches prog hdrop hfuel
    obtain ⟨f, rfl⟩ : ∃ f, fuel = f + 1 := ⟨fuel - 1, by omega⟩
    have hsrc : flatPageSource ps total (i + 1) ck =
        { entries := [], totalCount := total, hasMoreRecords := true,
          pagingCookie := none } := by
      simp [flatPageSource, hdrop]
    simp [queryAllLoop, hsrc]
  | cons p rest ih =>
    intro i fuel acc ck tot fetches prog hdrop hfuel
    obtain ⟨f, rfl⟩ : ∃ f, fuel = f + 1 := ⟨fuel - 1, by omega⟩
    have hmem : p ∈ ps := List.drop_subset i ps (hdrop ▸ List.mem_cons_self p rest)
    have hp : p ≠ [] := hne p hmem
    have hsrc : flatPageSource ps total (i + 1) ck =
        { entries := p, totalCount := total, hasMoreRecords := true,
          pagingCookie := none } := by
      simp [flatPageSource, hdrop]
    have hdrop2 : ps.drop (i + 1) = rest := by
      have : ps.drop (i + 1) = (ps.drop i).drop 1 := by
        rw [List.drop_drop]
      rw [this, hdrop]
      rfl
    have hnz : ¬(p.length = 0) := by
      simpa [List.length_eq_zero] using hp
    rw [List.length_cons] at hfuel
    simp only [queryAllLoop, hsrc, if_true, if_neg hnz]
    have hguard : ¬(0 < 0 ∧ 0 ≤ acc.length) := by omega
    rw [if_neg hguard, if_neg (by omega : ¬ 0 < 0)]
    have hrec := ih (i + 1) f (acc ++ p) none total (fetches + 1)
      (prog ++ [((acc ++ p).length, total)]) hdrop2 (by omega)
    refine ⟨?_, ?_, ?_⟩
    · rw [hrec.1, List.flatten_cons, List.append_assoc]
    · rw [hrec.2.1, List.length_cons]; omega
    · rw [hrec.2.2, List.length_append, List.length_cons, List.length_cons]
      simp
      omega

theorem queryAllLoop_bounded (ps : List (List AuditLogEntry)) (total : Int)
    (hne : ∀ p ∈ ps, p ≠ []) :
    ∀ sfx i fuel acc ck tot fetches prog,
      ps.drop i = sfx → sfx ≠ [] → i + sfx.length = ps.length →
      sfx.length + 1 ≤ fuel →
      (queryAllLoop (boundedPageSource ps total) 0 fuel acc (i + 1) ck true tot
          fetches prog).entries = acc ++ sfx.flatten ∧
      (queryAllLoop (boundedPageSource ps total) 0 fuel acc (i + 1) ck true tot
          fetches prog).fetches = fetches + sfx.length ∧
      (queryAllLoop (boundedPageSource ps total) 0 fuel acc (i + 1) ck true tot
          fetches prog).progress.length = prog.length + sfx.length := by
  intro sfx
  induction sfx with
  | nil =>
    intro i fuel acc ck tot fetches prog _ hnil
    exact absurd rfl hnil
  | cons p rest ih =>
    intro i fuel acc ck tot fetches prog hdrop _ hlen hfuel
    rw [List.length_cons] at hfuel hlen
    obtain ⟨f, rfl⟩ : ∃ f, fuel = f + 1 := ⟨fuel - 1, by omega⟩
    have hmem : p ∈ ps := List.drop_subset i ps (hdrop ▸ List.mem_cons_self p rest)
    have hp : p ≠ [] := hne p hmem
    have hlt : i + 1 ≤ ps.length := by omega
    have hsrc : boundedPageSource ps total (i + 1) ck =
        { entries := p, totalCount := total,
          hasMoreRecords := decide (i + 1 < ps.length), pagingCookie := none } := by
      simp [boundedPageSource, hdrop]
    have hdrop2 : ps.drop (i + 1) = rest := by
      have h2 : ps.drop (i + 1) = (ps.drop i).drop 1 := by rw [List.drop_drop]
      rw [h2, hdrop]
      rfl
    have hnz : ¬(p.length = 0) := by simpa [List.length_eq_zero] using hp
    simp only [queryAllLoop, hsrc, if_true, if_neg hnz]
    have hguard : ¬(0 < 0 ∧ 0 ≤ acc.length) := by omega
    rw [if_neg hguard, if_neg (by omega : ¬ 0 < 0)]
    cases rest with
    | nil =>
      -- the page just consumed was the last one: `hasMoreRecords` is false
      have hfin : ¬(i + 1 < ps.length) := by simp at hlen; omega
      obtain ⟨f2, rfl⟩ : ∃ f2, f = f2 + 1 := ⟨f - 1, by simp at hfuel; omega⟩
      simp [queryAllLoop, hfin]
    | cons q rest2 =>
      have hmore : i + 1 < ps.length := by
        rw [List.length_cons] at hlen; omega
      rw [show (decide (i + 1 < ps.length)) = true by simpa using hmore]
      have hrec := ih (i + 1) f (acc ++ p) none total (fetches + 1)
        (prog ++ [((acc ++ p).length, total)]) hdrop2 (by simp)
        (by rw [List.length_cons] at hlen ⊢; omega)
        (by rw [List.length_cons] at hfuel ⊢; omega)
      refine ⟨?_, ?_, ?_⟩
      · rw [hrec.1]
        simp [List.flatten_cons, List.append_assoc]
      · rw [hrec.2.1]
        simp only [List.length_cons]
        omega
      · rw [hrec.2.2]
        simp only [List.length_append, List.length_cons, List.length_nil]
        omega

theorem foldl_attr_spec (oldValues newValues : List (String × JsVal))
    (m : List (String × AttributeOption))
    (body : List AttributeDetail → String → List AttributeDetail)
    (hbody : ∀ det k, body det k =
      if attributeRowEmitted oldValues newValues k then
        det ++
          [{ attributeName := k
             attributeDisplayName := attributeDisplayNameOf m k
             oldValue :=
               formatAuditValue ((alLookup oldValues k).getD .undefined) oldValues k
             newValue :=
               formatAuditValue ((alLookup newValues k).getD .undefined) newValues k
             oldFormattedValue := none
             newFormattedValue := none }]
      else det) :
    ∀ (ks : List String) (acc : List AttributeDetail),
      (∀ r ∈ acc, r.attributeDisplayName = attributeDisplayNameOf m r.attributeName) →
      ((ks.foldl body acc).map (fun r => r.attributeName) =
        acc.map (fun r => r.attributeName) ++
          ks.filter (attributeRowEmitted oldValues newValues)) ∧
      (∀ r ∈ ks.foldl body acc,
        r.attributeDisplayName = attributeDisplayNameOf m r.attributeName) := by
  intro ks
  induction ks with
  | nil =>
    intro acc hacc
    simpa using hacc
  | cons k ks ih =>
    intro acc hacc
    rw [List.foldl_cons, hbody, List.filter_cons]
    by_cases he : attributeRowEmitted oldValues newValues k = true
    · rw [if_pos he, if_pos he]
      have hacc2 : ∀ r ∈ acc ++
          [{ attributeName := k
             attributeDisplayName := attributeDisplayNameOf m k
             oldValue :=
               formatAuditValue ((alLookup oldValues k).getD .undefined) oldValues k
             newValue :=
               formatAuditValue ((alLookup newValues k).getD .undefined) newValues k
             oldFormattedValue := none
             newFormattedValue := none }],
          r.attributeDisplayName = attributeDisplayNameOf m r.attributeName := by
        intro r hr
        rcases List.mem_append.mp hr with h | h
        · exact hacc r h
        · simp only [List.mem_singleton] at h
          subst h
          rfl
      have hrec := ih _ hacc2
      refine ⟨?_, hrec.2⟩
      rw [hrec.1]
      simp
    · rw [if_neg he, if_neg he]
      exact ih acc hacc

/-! # Claim theorems -/

/-- C1, counterexample: in the state "page 1, no in-flight cursor, cache
holding a cursor for page 2" (reached e.g. by fetching page 1 and then
navigating back to it), `canNavigateToPage (current+1) = true` although the
in-flight cursor is not set — refuting the claimed "iff the current fetch
has returned a cursor" for page `current+1`. -/
theorem canNavigateToPage_next_without_cursor :
    canNavigateToPage ⟨1, 50, 0, false, none, none, [(2, "c")]⟩ 2 = true ∧
    (⟨1, 50, 0, false, none, none, [(2, "c")]⟩ : PagingState).cookieRef = none ∧
    (⟨1, 50, 0, false, none, none, [(2, "c")]⟩ : PagingState).pageNumber + 1 = 2 :=
  ⟨by decide, rfl, rfl⟩

/-- C1 (amended): `canNavigateToPage 1` is always true;
`canNavigateToPage (current+1)` is true iff the in-flight cursor is set
*or* page `current+1` has a cached cursor; and for every `k > current+1`,
`canNavigateToPage k` is true iff `k` is a key of the cursor cache. -/
theorem canNavigateToPage_navigability (s : PagingState) (k : Nat)
    (hpage : 1 ≤ s.pageNumber) :
    canNavigateToPage s 1 = true ∧
    canNavigateToPage s (s.pageNumber + 1) =
      (optStrTruthy s.cookieRef || alHas s.cookieCache (s.pageNumber + 1)) ∧
    (s.pageNumber + 1 < k → canNavigateToPage s k = alHas s.cookieCache k) := by
  refine ⟨by simp [canNavigateToPage], ?_, ?_⟩
  · have hne : ¬(s.pageNumber + 1 = 1) := by omega
    by_cases hc : optStrTruthy s.cookieRef = true
    · simp [canNavigateToPage, hne, hc]
    · have hc2 : optStrTruthy s.cookieRef = false := by simpa using hc
      simp [canNavigateToPage, hne, hc2]
  · intro hk
    have h1 : ¬(k = 1) := by omega
    have h2 : ¬(k = s.pageNumber + 1) := by omega
    simp [canNavigateToPage, h1, h2]

/-- C1, witness for the amended theorem at a concrete state. -/
theorem canNavigateToPage_navigability_witness :
    canNavigateToPage ⟨2, 50, 0, true, some "c1", some "c1", [(2, "c0")]⟩ 1 = true ∧
    canNavigateToPage ⟨2, 50, 0, true, some "c1", some "c1", [(2, "c0")]⟩ 5 =
      alHas [(2, "c0")] 5 :=
  ⟨(canNavigateToPage_navigability ⟨2, 50, 0, true, some "c1", some "c1", [(2, "c0")]⟩
      5 (by decide)).1,
   (canNavigateToPage_navigability ⟨2, 50, 0, true, some "c1", some "c1", [(2, "c0")]⟩
      5 (by decide)).2.2 (by decide)⟩

/-- C5: whenever the transport call rejects, `queryAuditLogs` swallows the
error and returns the empty page result
`{entries := [], totalCount := 0, hasMoreRecords := false}` for every
filter and pagination state. -/
theorem queryAuditLogs_transport_failure_spec (decode : String → String)
    (filters : FiltersState) (pagination : PaginationArgs) (e : String) :
    queryAuditLogs decode filters pagination (.error e) =
      { entries := [], totalCount := 0, hasMoreRecords := false,
        pagingCookie := none } :=
  rfl

/-- C6: a `setPage` request for a page that is neither 1 nor `current+1`
and has no cached cursor leaves the whole pagination state unchanged. -/
theorem setPage_unreachable_noop (s : PagingState) (page : Nat)
    (h1 : page ≠ 1) (h2 : page ≠ s.pageNumber + 1)
    (h3 : alLookup s.cookieCache page = none) :
    setPage s page = s := by
  by_cases h0 : page = s.pageNumber
  · simp [setPage, h0]
  · simp [setPage, h0, h1, h2, h3]

/-- C6, witness: jumping to the unvisited page 5 from page 1 is a no-op. -/
theorem setPage_unreachable_noop_witness :
    setPage ⟨1, 50, 0, true, some "x", some "x", [(2, "c")]⟩ 5 =
      ⟨1, 50, 0, true, some "x", some "x", [(2, "c")]⟩ :=
  setPage_unreachable_noop ⟨1, 50, 0, true, some "x", some "x", [(2, "c")]⟩ 5
    (by decide) (by decide) (by decide)

/-- C7: cursor recording discipline of the fetch cycle — a failed fetch
stores nothing; a successful fetch touches no cache key other than
"requested page + 1"; any key present afterwards was either present before
or is exactly "requested page + 1". -/
theorem fetch_cursor_recording_spec (s : PagingState) (r : QueryResult) (k : Nat) :
    (applyFetchError s).cookieCache = s.cookieCache ∧
    (k ≠ s.pageNumber + 1 →
      alLookup (applyFetchSuccess s r).cookieCache k = alLookup s.cookieCache k) ∧
    (alHas (applyFetchSuccess s r).cookieCache k = true →
      alHas s.cookieCache k = true ∨ k = s.pageNumber + 1) := by
  refine ⟨rfl, ?_, ?_⟩
  · intro hk
    simp only [applyFetchSuccess]
    cases hrc : r.pagingCookie with
    | none => rfl
    | some c =>
      by_cases hc : c = ""
      · simp [hc]
      · simp [hc, alLookup_insert_ne s.cookieCache (s.pageNumber + 1) k c hk]
  · intro hhas
    by_cases hk : k = s.pageNumber + 1
    · exact Or.inr hk
    · left
      simp only [applyFetchSuccess] at hhas
      cases hrc : r.pagingCookie with
      | none => simpa [hrc] using hhas
      | some c =>
        by_cases hc : c = ""
        · simpa [hrc, hc] using hhas
        · simp only [hrc, if_neg hc] at hhas
          rcases alHas_insert s.cookieCache (s.pageNumber + 1) k c hhas with h | h
          · exact h
          · exact absurd h hk

/-- C7, witness at a concrete state, cookie and off-target key. -/
theorem fetch_cursor_recording_spec_witness :
    alLookup (applyFetchSuccess ⟨1, 50, 0, true, none, none, [(5, "c5")]⟩
        ⟨[], 9, true, some "c1"⟩).cookieCache 5 =
      alLookup [(5, "c5")] 5 ∧
    (applyFetchError ⟨1, 50, 0, true, none, none, [(5, "c5")]⟩).cookieCache =
      [(5, "c5")] :=
  ⟨(fetch_cursor_recording_spec ⟨1, 50, 0, true, none, none, [(5, "c5")]⟩
      ⟨[], 9, true, some "c1"⟩ 5).2.1 (by decide),
   (fetch_cursor_recording_spec ⟨1, 50, 0, true, none, none, [(5, "c5")]⟩
      ⟨[], 9, true, some "c1"⟩ 5).1⟩

/-- C8, counterexample: dispatching `SET_RECORD` with a non-null id from
the initial state (no table selected) is a reducer-reachable state whose
`recordId` is non-null while zero tables are selected — the reducer itself
does not enforce the claimed invariant. -/
theorem filterReducer_record_invariant_cex :
    FilterReachable
      (filterReducer initialFiltersState (.setRecord (some "rec-1") (some "Rec 1"))) ∧
    (filterReducer initialFiltersState
      (.setRecord (some "rec-1") (some "Rec 1"))).recordId = some "rec-1" ∧
    (filterReducer initialFiltersState
      (.setRecord (some "rec-1") (some "Rec 1"))).tableLogicalNames.length = 0 :=
  ⟨FilterReachable.step initialFiltersState _ FilterReachable.init, rfl, rfl⟩

/-- C8 (amended): provided every set-record dispatch carrying a non-null
record id happens while exactly one table is selected (the discipline the
UI enforces), every reachable filter state satisfies the invariant: a
non-null `recordId` implies exactly one selected table. -/
theorem filterReducer_record_invariant (s : FiltersState)
    (h : UIFilterReachable s) :
    s.recordId.isSome = true → s.tableLogicalNames.length = 1 := by
  induction h with
  | init => intro hc; simp [initialFiltersState] at hc
  | step s a hs hguard ih =>
    intro hrec
    cases a with
    | setTables payload => simp [filterReducer] at hrec
    | setRecord id name =>
      cases id with
      | none => simp [filterReducer] at hrec
      | some i =>
        have := hguard i name rfl
        simpa [filterReducer] using this
    | setAttributes payload => exact ih (by simpa [filterReducer] using hrec)
    | setOperations payload => exact ih (by simpa [filterReducer] using hrec)
    | setActions payload => exact ih (by simpa [filterReducer] using hrec)
    | setFromDate payload => exact ih (by simpa [filterReducer] using hrec)
    | setToDate payload => exact ih (by simpa [filterReducer] using hrec)
    | setUsers payload => exact ih (by simpa [filterReducer] using hrec)
    | setSecurityRoles payload => exact ih (by simpa [filterReducer] using hrec)
    | clearFilters => simp [filterReducer, initialFiltersState] at hrec

/-- C8, witness: select the single table "contact", then a record — the
invariant holds in the resulting state. -/
theorem filterReducer_record_invariant_witness :
    (filterReducer (filterReducer initialFiltersState (.setTables ["contact"]))
      (.setRecord (some "r1") none)).tableLogicalNames.length = 1 :=
  filterReducer_record_invariant _
    (UIFilterReachable.step _ _
      (UIFilterReachable.step _ _ UIFilterReachable.init
        (fun _ _ hcontra => nomatch hcontra))
      (fun _ _ _ => rfl))
    rfl

/-- C4, counterexample: a response that omits the total count *and*
contains zero rows short-circuits to `totalCount = 0`, while the claimed
fallback formula (`hasMore` is false, zero entries, page 2, page size 50)
predicts `0 + (2-1)*50 = 50`. -/
theorem queryAuditLogs_empty_page_estimate_cex :
    (queryAuditLogs id initialFiltersState ⟨2, 50, none⟩
      (.ok (some ⟨some [], none, none, none⟩))).totalCount = 0 ∧
    (queryAuditLogs id initialFiltersState ⟨2, 50, none⟩
      (.ok (some ⟨some [], none, none, none⟩))).hasMoreRecords = false ∧
    (queryAuditLogs id initialFiltersState ⟨2, 50, none⟩
      (.ok (some ⟨some [], none, none, none⟩))).entries.length = 0 ∧
    ((0 : Int) + ((2 : Int) - 1) * 50) = 50 :=
  ⟨rfl, rfl, rfl, by decide⟩

/-- C4 (amended): for every response carrying at least one row, an omitted
more-records flag is inferred as `row count ≥ pageSize`, and an omitted
total count is estimated as
`hasMore ? entries.length*(page+1) : entries.length + (page-1)*pageSize`. -/
theorem queryAuditLogs_fallback_spec (decode : String → String)
    (filters : FiltersState) (p : PaginationArgs) (rd : FetchXmlResponse)
    (hne : (rd.value.getD []).length ≠ 0) :
    (rd.morerecords = none →
      (queryAuditLogs decode filters p (.ok (some rd))).hasMoreRecords =
        decide (p.pageSize ≤ (rd.value.getD []).length)) ∧
    (rd.totalrecordcount = none →
      (queryAuditLogs decode filters p (.ok (some rd))).totalCount =
        (if (queryAuditLogs decode filters p (.ok (some rd))).hasMoreRecords then
          ((queryAuditLogs decode filters p (.ok (some rd))).entries.length : Int) *
            ((p.pageNumber : Int) + 1)
        else
          ((queryAuditLogs decode filters p (.ok (some rd))).entries.length : Int) +
            ((p.pageNumber : Int) - 1) * (p.pageSize : Int))) := by
  have hne2 : ¬(rd.value.getD [] = []) := by
    intro h
    exact hne (by simp [h])
  constructor
  · intro hmr
    simp [queryAuditLogs, hne2, hmr]
  · intro htc
    simp [queryAuditLogs, hne2, htc]

/-- C4, witness for the amended theorem: one raw row, page 2, page size 1,
flag and count both omitted — the flag is inferred true and the total
estimated as `1 * (2 + 1) = 3`. -/
theorem queryAuditLogs_fallback_spec_witness :
    (queryAuditLogs id initialFiltersState ⟨2, 1, none⟩
      (.ok (some ⟨some [⟨some "id1", none, none, none, none, none, none, none,
        none, none, none, none, none⟩], none, none, none⟩))).hasMoreRecords =
      decide ((1 : Nat) ≤ 1) ∧
    (queryAuditLogs id initialFiltersState ⟨2, 1, none⟩
      (.ok (some ⟨some [⟨some "id1", none, none, none, none, none, none, none,
        none, none, none, none, none⟩], none, none, none⟩))).totalCount = 3 := by
  have h := queryAuditLogs_fallback_spec id initialFiltersState ⟨2, 1, none⟩
    ⟨some [⟨some "id1", none, none, none, none, none, none, none,
      none, none, none, none, none⟩], none, none, none⟩ (by decide)
  exact ⟨h.1 rfl, by rw [h.2 rfl]; decide⟩

/-- C3, counterexample: for merged maps in which the key `"a"` has the
*same* stringified value `"1"` on both sides, `parseAttributeAuditDetail`
still emits a row — refuting "exactly one row per key whose stringified
values differ" (the parser performs no difference check). -/
theorem parseAttributeAuditDetail_equal_values_cex :
    (parseAttributeAuditDetail
      (.obj [("OldValue", .obj [("a", .num 1)]),
             ("NewValue", .obj [("a", .num 1)])])
      []).map (fun r => (r.attributeName, r.oldValue, r.newValue)) =
      [("a", some "1", some "1")] := by
  decide

/-- C3 (amended): `parseAttributeAuditDetail` emits exactly one row per key
present in either merged map whose value is defined on at least one side —
independent of whether the values differ; keys starting with `@` or `_`
are skipped; each row's display name comes from the attribute-metadata map
with the raw field name as fallback. -/
theorem parseAttributeAuditDetail_rows_spec (d : JsVal)
    (m : List (String × AttributeOption)) :
    (parseAttributeAuditDetail d m).map (fun r => r.attributeName) =
      (dedupKeys ((buildValueMap (getField d "OldValue")).map (fun p => p.1) ++
        (buildValueMap (getField d "NewValue")).map (fun p => p.1))).filter
        (attributeRowEmitted (buildValueMap (getField d "OldValue"))
          (buildValueMap (getField d "NewValue"))) ∧
    (parseAttributeAuditDetail d m).map (fun r => r.attributeDisplayName) =
      (parseAttributeAuditDetail d m).map
        (fun r => attributeDisplayNameOf m r.attributeName) := by
  have hbody : ∀ (det : List AttributeDetail) (k : String),
      (if strStartsWithChar k '@' || strStartsWithChar k '_' then det
       else
         let oldVal :=
           (alLookup (buildValueMap (getField d "OldValue")) k).getD .undefined
         let newVal :=
           (alLookup (buildValueMap (getField d "NewValue")) k).getD .undefined
         if oldVal.isUndefined ∧ newVal.isUndefined then det
         else
           let displayName :=
             match alLookup m k with
             | some meta => strOr meta.displayName k
             | none => k
           det ++
             [{ attributeName := k
                attributeDisplayName := displayName
                oldValue := formatAuditValue oldVal
                  (buildValueMap (getField d "OldValue")) k
                newValue := formatAuditValue newVal
                  (buildValueMap (getField d "NewValue")) k
                oldFormattedValue := none
                newFormattedValue := none }]) =
      (if attributeRowEmitted (buildValueMap (getField d "OldValue"))
          (buildValueMap (getField d "NewValue")) k then
        det ++
          [{ attributeName := k
             attributeDisplayName := attributeDisplayNameOf m k
             oldValue := formatAuditValue
               ((alLookup (buildValueMap (getField d "OldValue")) k).getD .undefined)
               (buildValueMap (getField d "OldValue")) k
             newValue := formatAuditValue
               ((alLookup (buildValueMap (getField d "NewValue")) k).getD .undefined)
               (buildValueMap (getField d "NewValue")) k
             oldFormattedValue := none
             newFormattedValue := none }]
      else det) := by
    intro det k
    by_cases h1 : (strStartsWithChar k '@' || strStartsWithChar k '_') = true
    · simp [attributeRowEmitted, h1]
    · have h1f : (strStartsWithChar k '@' || strStartsWithChar k '_') = false := by
        simpa using h1
      by_cases h2 :
          ((alLookup (buildValueMap (getField d "OldValue")) k).getD .undefined).isUndefined
            = true ∧
          ((alLookup (buildValueMap (getField d "NewValue")) k).getD .undefined).isUndefined
            = true
      · simp [attributeRowEmitted, h1f, h2.1, h2.2]
      · have hb :
            (((alLookup (buildValueMap (getField d "OldValue")) k).getD .undefined).isUndefined
              &&
             ((alLookup (buildValueMap (getField d "NewValue")) k).getD .undefined).isUndefined)
              = false := by
          cases ha :
              ((alLookup (buildValueMap (getField d "OldValue")) k).getD
                JsVal.undefined).isUndefined with
          | false => simp [ha]
          | true =>
            cases hbv :
                ((alLookup (buildValueMap (getField d "NewValue")) k).getD
                  JsVal.undefined).isUndefined with
            | false => simp [ha, hbv]
            | true => exact absurd ⟨ha, hbv⟩ h2
        simp [attributeRowEmitted, h1f, hb, h2, attributeDisplayNameOf]
  have heq : parseAttributeAuditDetail d m =
      (dedupKeys ((buildValueMap (getField d "OldValue")).map (fun p => p.1) ++
        (buildValueMap (getField d "NewValue")).map (fun p => p.1))).foldl
        (fun details attrName =>
          if strStartsWithChar attrName '@' || strStartsWithChar attrName '_' then details
          else
            let oldVal :=
              (alLookup (buildValueMap (getField d "OldValue")) attrName).getD .undefined
            let newVal :=
              (alLookup (buildValueMap (getField d "NewValue")) attrName).getD .undefined
            if oldVal.isUndefined ∧ newVal.isUndefined then details
            else
              let displayName :=
                match alLookup m attrName with
                | some meta => strOr meta.displayName attrName
                | none => attrName
              details ++
                [{ attributeName := attrName
                   attributeDisplayName := displayName
                   oldValue := formatAuditValue oldVal
                     (buildValueMap (getField d "OldValue")) attrName
                   newValue := formatAuditValue newVal
                     (buildValueMap (getField d "NewValue")) attrName
                   oldFormattedValue := none
                   newFormattedValue := none }]) [] := rfl
  have key := foldl_attr_spec (buildValueMap (getField d "OldValue"))
    (buildValueMap (getField d "NewValue")) m _ hbody
    (dedupKeys ((buildValueMap (getField d "OldValue")).map (fun p => p.1) ++
      (buildValueMap (getField d "NewValue")).map (fun p => p.1))) []
    (by simp)
  rw [heq]
  refine ⟨by simpa using key.1, ?_⟩
  exact List.map_congr_left key.2

/-- C9: Scenario B — for the share envelope with a team principal
`"T1"`, `OldPrivileges = 0` and `NewPrivileges = 3`, the dispatcher selects
the share parser and produces the single detail
`{type: share, principalId: "T1", principalType: "team",
oldPrivileges: "None", newPrivileges: "Read, Write"}` (bit 1 = Read,
bit 2 = Write, 0 formats as "None"), for every principal-name lookup,
privilege cache, record lookup and attribute map. -/
theorem parseAuditDetail_share_scenario (lookupP : String → String → String)
    (privC : String → Option Privilege) (getRec : String → String → Option String)
    (entityName : String) (attrMap : List (String × AttributeOption)) :
    parseAuditDetail lookupP privC getRec
      (.obj [("@odata.type", .str "#Microsoft.Dynamics.CRM.ShareAuditDetail"),
             ("Principal",
               .obj [("@odata.type", .str "#Microsoft.Dynamics.CRM.team"),
                     ("ownerid", .str "T1")]),
             ("OldPrivileges", .num 0), ("NewPrivileges", .num 3)])
      entityName attrMap =
      [.share { principalId := "T1"
                principalName :=
                  if lookupP "T1" "team" = "" ∨ lookupP "T1" "team" = "Unknown"
                  then "Team (T1...)" else lookupP "T1" "team"
                principalType := "team"
                oldPrivileges := "None"
                newPrivileges := "Read, Write" }] := by
  rfl

/-- C10: when the `RetrieveAuditDetails` call rejects, `getAuditDetails`
returns `[]` *and* stores `[]` in the details cache under the audit id;
a later `loadDetails` for that id (not yet in the component map) hits the
service cache — the empty array is truthy — copies the empty list and
issues no new fetch; only an explicit cache clear removes the entry. -/
theorem getAuditDetails_negative_cache (parseJson : String → Option JsVal)
    (attrByCol : String → Int → Option AttributeOption)
    (lookupP : String → String → String) (privC : String → Option Privilege)
    (getRec : String → String → Option String)
    (attrMap : List (String × AttributeOption)) (cache : DetailsCache)
    (detailsMap : List (String × List AuditDetail))
    (entries : List AuditLogEntry) (tables : List String)
    (auditId entityName : String) (entry : Option AuditLogEntry) (e : String)
    (nameArg : Option String) (anyFetch : List AuditDetail)
    (hmeta : ∀ en, entry = some en → en.action ∉ metadataActionCodes)
    (hdm : alHas detailsMap auditId = false) :
    (getAuditDetails parseJson attrByCol lookupP privC getRec attrMap cache
      auditId entityName entry (.error e)).1 = [] ∧
    getCachedDetails (getAuditDetails parseJson attrByCol lookupP privC getRec
      attrMap cache auditId entityName entry (.error e)).2 auditId = some [] ∧
    (loadDetails detailsMap (getAuditDetails parseJson attrByCol lookupP privC
      getRec attrMap cache auditId entityName entry (.error e)).2 entries tables
      auditId nameArg anyFetch).fetchIssued = false ∧
    (loadDetails detailsMap (getAuditDetails parseJson attrByCol lookupP privC
      getRec attrMap cache auditId entityName entry (.error e)).2 entries tables
      auditId nameArg anyFetch).detailsMap = alInsert detailsMap auditId [] ∧
    getCachedDetails clearAuditDetailsCache auditId = none := by
  have hout : getAuditDetails parseJson attrByCol lookupP privC getRec attrMap
      cache auditId entityName entry (.error e) =
      ([], alInsert cache auditId []) := by
    cases entry with
    | none => rfl
    | some en =>
      have h := hmeta en rfl
      simp [getAuditDetails, h, getAuditDetails.getAuditDetailsFetch]
  have hcached : getCachedDetails (alInsert cache auditId
      ([] : List AuditDetail)) auditId = some [] :=
    alLookup_insert_self cache auditId []
  refine ⟨by rw [hout], by rw [hout]; exact hcached, ?_, ?_, rfl⟩
  · rw [hout]
    simp [loadDetails, hdm, hcached]
  · rw [hout]
    simp [loadDetails, hdm, hcached]

/-- C10, witness: a failed fetch for `"A1"` on an empty cache and an empty
component map. -/
theorem getAuditDetails_negative_cache_witness :
    (getAuditDetails (fun _ => none) (fun _ _ => none) (fun _ _ => "")
      (fun _ => none) (fun _ _ => none) [] [] "A1" "contact" none (.error "boom")).1
        = [] ∧
    (loadDetails [] (getAuditDetails (fun _ => none) (fun _ _ => none)
      (fun _ _ => "") (fun _ => none) (fun _ _ => none) [] [] "A1" "contact"
      none (.error "boom")).2 [] [] "A1" none []).fetchIssued = false :=
  ⟨(getAuditDetails_negative_cache (fun _ => none) (fun _ _ => none)
      (fun _ _ => "") (fun _ => none) (fun _ _ => none) [] [] [] [] []
      "A1" "contact" none "boom" none []
      (fun _ hcontra => nomatch hcontra) rfl).1,
   (getAuditDetails_negative_cache (fun _ => none) (fun _ _ => none)
      (fun _ _ => "") (fun _ => none) (fun _ _ => none) [] [] [] [] []
      "A1" "contact" none "boom" none []
      (fun _ hcontra => nomatch hcontra) rfl).2.2.1⟩

/-- C2: the bulk walker's export cap and termination behavior.
(1) With `maxRecords = M > 0` against a source of unlimited pages of
uniform size `S`, the walk returns exactly `M` entries and issues exactly
`⌈M/S⌉` page fetches — no fetch after the cap is met mid-page.
(2) With `maxRecords = 0` against unlimited-`hasMore` pages, it
accumulates every page until a page returns zero rows (one final probing
fetch), reporting progress once per non-empty page.
(3) With `maxRecords = 0` it also stops as soon as a page reports
`hasMoreRecords = false`, again with one progress event per page. -/
theorem queryAllAuditLogs_export_cap :
    (∀ (fp : Nat → Option String → QueryResult) (S M fuel : Nat),
      0 < S → 0 < M →
      (∀ n c, (fp n c).entries.length = S ∧ (fp n c).hasMoreRecords = true) →
      M + 1 ≤ fuel →
      (queryAllAuditLogs fp M fuel).entries.length = M ∧
      (queryAllAuditLogs fp M fuel).fetches = (M + S - 1) / S) ∧
    (∀ (ps : List (List AuditLogEntry)) (total : Int) (fuel : Nat),
      (∀ p ∈ ps, p ≠ []) → ps.length + 2 ≤ fuel →
      (queryAllAuditLogs (flatPageSource ps total) 0 fuel).entries =
        ps.flatten ∧
      (queryAllAuditLogs (flatPageSource ps total) 0 fuel).fetches =
        ps.length + 1 ∧
      (queryAllAuditLogs (flatPageSource ps total) 0 fuel).progress.length =
        ps.length) ∧
    (∀ (ps : List (List AuditLogEntry)) (total : Int) (fuel : Nat),
      ps ≠ [] → (∀ p ∈ ps, p ≠ []) → ps.length + 1 ≤ fuel →
      (queryAllAuditLogs (boundedPageSource ps total) 0 fuel).entries =
        ps.flatten ∧
      (queryAllAuditLogs (boundedPageSource ps total) 0 fuel).fetches =
        ps.length ∧
      (queryAllAuditLogs (boundedPageSource ps total) 0 fuel).progress.length =
        ps.length) := by
  refine ⟨?_, ?_, ?_⟩
  · intro fp S M fuel hS hM hsrc hfuel
    have h := queryAllLoop_cap fp S M hS hsrc fuel M [] 1 none 0 0 []
      (by simp) hM hfuel
    exact ⟨h.1, by simpa using h.2⟩
  · intro ps total fuel hne hfuel
    have h := queryAllLoop_flat ps total hne ps 0 fuel [] none 0 0 []
      (by simp) hfuel
    exact ⟨by simpa using h.1, by simpa using h.2.1, by simpa using h.2.2⟩
  · intro ps total fuel hps hne hfuel
    have h := queryAllLoop_bounded ps total hne ps 0 fuel [] none 0 0 []
      (by simp) hps (by simp) hfuel
    exact ⟨by simpa using h.1, by simpa using h.2.1, by simpa using h.2.2⟩

/-- C2, witness: pages of size 2 with cap 3 → 3 entries in 2 fetches; one
non-empty page with `maxRecords = 0` → all entries, one probing fetch past
the end for the always-more source, none for the bounded source. -/
theorem queryAllAuditLogs_export_cap_witness :
    (queryAllAuditLogs (fun _ _ =>
      ⟨[sampleEntry, sampleEntry], 7, true, none⟩) 3 10).entries.length = 3 ∧
    (queryAllAuditLogs (fun _ _ =>
      ⟨[sampleEntry, sampleEntry], 7, true, none⟩) 3 10).fetches = (3 + 2 - 1) / 2 ∧
    (queryAllAuditLogs (flatPageSource [[sampleEntry]] 7) 0 5).entries =
      [[sampleEntry]].flatten ∧
    (queryAllAuditLogs (flatPageSource [[sampleEntry]] 7) 0 5).fetches =
      [[sampleEntry]].length + 1 ∧
    (queryAllAuditLogs (boundedPageSource [[sampleEntry]] 7) 0 3).fetches =
      [[sampleEntry]].length :=
  ⟨(queryAllAuditLogs_export_cap.1 (fun _ _ =>
      ⟨[sampleEntry, sampleEntry], 7, true, none⟩) 2 3 10 (by decide) (by decide)
      (fun _ _ => ⟨rfl, rfl⟩) (by decide)).1,
   (queryAllAuditLogs_export_cap.1 (fun _ _ =>
      ⟨[sampleEntry, sampleEntry], 7, true, none⟩) 2 3 10 (by decide) (by decide)
      (fun _ _ => ⟨rfl, rfl⟩) (by decide)).2,
   (queryAllAuditLogs_export_cap.2.1 [[sampleEntry]] 7 5
      (by intro p hp; simp at hp; subst hp; simp) (by decide)).1,
   (queryAllAuditLogs_export_cap.2.1 [[sampleEntry]] 7 5
      (by intro p hp; simp at hp; subst hp; simp) (by decide)).2.1,
   (queryAllAuditLogs_export_cap.2.2 [[sampleEntry]] 7 3 (by simp)
      (by intro p hp; simp at hp; subst hp; simp) (by decide)).2.1⟩

end Pptb
